import Mathlib

/-!
  Verification of the mini-monitor metrics pipeline (src/server.js).

  Modeling conventions for the JavaScript source:
  - JS numbers are modeled as exact rationals (ℚ).  NaN and ±Infinity can
    arise in this program only from division involving a zero or undefined
    denominator; where that can happen (memory percent) the result type is
    the explicit extended type JNum.
  - JS strings are modeled as lists of characters (JStr).
  - Absent / undefined fields are modeled by Option; JS truthiness on a
    number field (used by the source's `!x` and `x || y` idioms) is
    "present and nonzero".
  - Fallible JS code (code that can throw) is modeled in Except; pure
    never-throwing code returns plain values.
-/

namespace MiniMonitor

/-- JS strings, modeled as character lists. -/
abbrev JStr := List Char

/-- A JS number result that may be NaN or ±Infinity (only division can
produce these in the modeled code). -/
inductive JNum where
  | num (q : ℚ)
  | nan
  | inf
  | ninf
deriving DecidableEq, Repr

/-- JS division `a / b` where the denominator may be undefined (absent
field).  `x / undefined` is NaN; `x / 0` is NaN for x = 0 and ±Infinity
otherwise. -/
def jsDiv (a : ℚ) (b : Option ℚ) : JNum :=
  match b with
  | none => JNum.nan
  | some q =>
    if q = 0 then
      if a = 0 then JNum.nan else if 0 < a then JNum.inf else JNum.ninf
    else JNum.num (a / q)

/-- JS multiplication of a possibly non-finite number by a rational
constant (used only with the positive constant 100). -/
def jsMul (x : JNum) (c : ℚ) : JNum :=
  match x with
  | JNum.num q => JNum.num (q * c)
  | JNum.nan => JNum.nan
  | JNum.inf => if 0 < c then JNum.inf else if c = 0 then JNum.nan else JNum.ninf
  | JNum.ninf => if 0 < c then JNum.ninf else if c = 0 then JNum.nan else JNum.inf

/-! ## Raw stats payload model (fields consumed by server.js) -/

/-- The `cpu_stats.cpu_usage` / `precpu_stats.cpu_usage` object. -/
structure CpuUsage where
  total_usage : Option ℚ
  percpu_usage : Option (List ℚ)
deriving DecidableEq, Repr

/-- The `cpu_stats` / `precpu_stats` object. -/
structure CpuStats where
  cpu_usage : Option CpuUsage
  system_cpu_usage : Option ℚ
  online_cpus : Option ℚ
deriving DecidableEq, Repr

/-- The `memory_stats.stats` object. -/
structure MemoryInner where
  cache : Option ℚ
deriving DecidableEq, Repr

/-- The `memory_stats` object. -/
structure MemoryStats where
  usage : Option ℚ
  limit : Option ℚ
  stats : Option MemoryInner
deriving DecidableEq, Repr

/-- A `blkio_stats` array field: absent/null (falsy), present but not an
array (`Array.isArray` fails, so it contributes nothing), or an array of
entries. -/
inductive BlkField (α : Type) where
  | absent
  | notArray
  | arr (l : List α)
deriving DecidableEq, Repr

/-- One block-IO entry `{op, value}`; `op = none` models an entry whose
`op` field is absent or not a string (so `.toLowerCase()` throws). -/
structure BlkioEntry where
  op : Option JStr
  value : ℚ
deriving DecidableEq, Repr

/-- The `blkio_stats` object. -/
structure BlkioStats where
  io_service_bytes_recursive : BlkField BlkioEntry
  io_service_bytes : BlkField BlkioEntry
deriving DecidableEq, Repr

/-- The `pids_stats` object. -/
structure PidsStats where
  current : Option ℚ
deriving DecidableEq, Repr

/-- Per-interface network counters, passed through verbatim by the code. -/
abbrev NetMap := List (JStr × ℚ × ℚ)

/-- The raw stats payload returned by the runtime for one container. -/
structure RawStats where
  cpu_stats : Option CpuStats
  precpu_stats : Option CpuStats
  memory_stats : Option MemoryStats
  blkio_stats : Option BlkioStats
  pids_stats : Option PidsStats
  networks : Option NetMap
deriving DecidableEq, Repr

/-! ## calculateCPUPercent (server.js lines 29-42) -/

/-- Translation of `calculateCPUPercent`.  The source's guard
`!stats?.cpu_stats?.cpu_usage?.total_usage || !stats?.precpu_stats?...`
is true when any link of the chain is absent or the number is 0 (JS
falsiness).  `systemDelta` uses unguarded field accesses: if either
`system_cpu_usage` is absent the subtraction is NaN and the comparison
`systemDelta > 0` is false, so the function returns 0. -/
def calculateCPUPercent : Option RawStats → ℚ
  | none => 0
  | some st =>
    match st.cpu_stats, st.precpu_stats with
    | some cs, some pcs =>
      match cs.cpu_usage, pcs.cpu_usage with
      | some cu, some pcu =>
        match cu.total_usage, pcu.total_usage with
        | some now, some prev =>
          if now = 0 ∨ prev = 0 then 0
          else
            let cpuDelta := now - prev
            let numberCpus : ℚ :=
              match cs.online_cpus with
              | some oc =>
                if oc = 0 then
                  match cu.percpu_usage with
                  | some l => if l.length = 0 then 1 else (l.length : ℚ)
                  | none => 1
                else oc
              | none =>
                match cu.percpu_usage with
                | some l => if l.length = 0 then 1 else (l.length : ℚ)
                | none => 1
            match cs.system_cpu_usage, pcs.system_cpu_usage with
            | some sn, some sp =>
              let systemDelta := sn - sp
              if 0 < systemDelta ∧ 0 < cpuDelta then
                cpuDelta / systemDelta * numberCpus * 100
              else 0
            | _, _ => 0
        | _, _ => 0
      | _, _ => 0
    | _, _ => 0

/-- Accessor for `stats?.cpu_stats?.cpu_usage?.total_usage`. -/
def cpuTotal (st : RawStats) : Option ℚ :=
  (st.cpu_stats.bind (fun cs => cs.cpu_usage)).bind (fun cu => cu.total_usage)

/-- Accessor for `stats?.precpu_stats?.cpu_usage?.total_usage`. -/
def preCpuTotal (st : RawStats) : Option ℚ :=
  (st.precpu_stats.bind (fun cs => cs.cpu_usage)).bind (fun cu => cu.total_usage)

/-- Accessor for `stats.cpu_stats.system_cpu_usage`. -/
def sysUsage (st : RawStats) : Option ℚ :=
  st.cpu_stats.bind (fun cs => cs.system_cpu_usage)

/-- Accessor for `stats.precpu_stats.system_cpu_usage`. -/
def preSysUsage (st : RawStats) : Option ℚ :=
  st.precpu_stats.bind (fun cs => cs.system_cpu_usage)

/-- Fallback CPU count: the per-CPU usage array length when present and
nonzero, else 1. -/
def percpuFallback (st : RawStats) : ℚ :=
  match (st.cpu_stats.bind (fun cs => cs.cpu_usage)).bind
      (fun cu => cu.percpu_usage) with
  | some l => if l.length = 0 then 1 else (l.length : ℚ)
  | none => 1

/-- Resolved online-CPU multiplier: the explicit `online_cpus` field when
present and nonzero, else the per-CPU array fallback. -/
def onlineCpusResolved (st : RawStats) : ℚ :=
  match st.cpu_stats.bind (fun cs => cs.online_cpus) with
  | some oc => if oc = 0 then percpuFallback st else oc
  | none => percpuFallback st

/-- The CPU-percent derivation as the amended claim describes it: all four
usage fields present, current and previous cumulative usage nonzero, both
deltas positive ⇒ the exact formula with the truthiness-based CPU-count
resolution; every other payload ⇒ 0. -/
def cpuSpecAmended : Option RawStats → ℚ
  | none => 0
  | some st =>
    match cpuTotal st, preCpuTotal st, sysUsage st, preSysUsage st with
    | some now, some prev, some sn, some sp =>
      if now ≠ 0 ∧ prev ≠ 0 ∧ 0 < now - prev ∧ 0 < sn - sp then
        (now - prev) / (sn - sp) * onlineCpusResolved st * 100
      else 0
    | _, _, _, _ => 0

/-- The CPU-percent derivation as claim C1 states it (presence-based, not
truthiness-based): fields present and both deltas positive ⇒ the formula
with presence-based CPU-count resolution; otherwise 0. -/
def cpuSpecClaimed : Option RawStats → ℚ
  | none => 0
  | some st =>
    match cpuTotal st, preCpuTotal st, sysUsage st, preSysUsage st with
    | some now, some prev, some sn, some sp =>
      if 0 < now - prev ∧ 0 < sn - sp then
        (now - prev) / (sn - sp) *
          (match st.cpu_stats.bind (fun cs => cs.online_cpus) with
           | some oc => oc
           | none =>
             match (st.cpu_stats.bind (fun cs => cs.cpu_usage)).bind
                 (fun cu => cu.percpu_usage) with
             | some l => (l.length : ℚ)
             | none => 1) * 100
      else 0
    | _, _, _, _ => 0

/-- Payload with all CPU fields present, previous cumulative usage 0:
claim C1's formula gives 100, the code gives 0 (JS falsiness on 0). -/
def c1ExampleA : RawStats :=
  { cpu_stats := some
      { cpu_usage := some { total_usage := some 100, percpu_usage := none }
        system_cpu_usage := some 200
        online_cpus := none }
    precpu_stats := some
      { cpu_usage := some { total_usage := some 0, percpu_usage := none }
        system_cpu_usage := some 100
        online_cpus := none }
    memory_stats := none
    blkio_stats := none
    pids_stats := none
    networks := none }

/-- Payload with `online_cpus` present with value 0 and a two-element
per-CPU array: claim C1's resolution order uses the present field (0, so
the formula yields 0) but the code falls through to the array length 2. -/
def c1ExampleB : RawStats :=
  { cpu_stats := some
      { cpu_usage := some
          { total_usage := some 300, percpu_usage := some [1, 2] }
        system_cpu_usage := some 400
        online_cpus := some 0 }
    precpu_stats := some
      { cpu_usage := some { total_usage := some 100, percpu_usage := none }
        system_cpu_usage := some 200
        online_cpus := none }
    memory_stats := none
    blkio_stats := none
    pids_stats := none
    networks := none }

/-! ## calculateMemoryUsage (server.js lines 44-57) -/

/-- Result object of `calculateMemoryUsage`.  The guard branch of the
source returns `{ start: 0, limit: 0, percent: 0 }` — note the key
`start`, not `usage` — while the main branch returns
`{ usage, limit, percent }`; absent keys are `none`. -/
structure MemResult where
  start : Option ℚ
  usage : Option ℚ
  limit : Option ℚ
  percent : JNum
deriving DecidableEq, Repr

/-- The object returned by the source's falsy-usage guard branch. -/
def memGuardResult : MemResult :=
  { start := some 0, usage := none, limit := some 0, percent := JNum.num 0 }

/-- Translation of `calculateMemoryUsage`.  The guard
`!stats?.memory_stats?.usage` fires when the chain is broken or usage is
0.  The main branch computes `used = usage - (stats.cache || 0)` and
`percent = used / limit * 100` with no guard on `limit`: an absent limit
gives NaN, a zero limit gives ±Infinity/NaN (JS semantics via jsDiv). -/
def calculateMemoryUsage : Option RawStats → MemResult
  | none => memGuardResult
  | some st =>
    match st.memory_stats with
    | none => memGuardResult
    | some ms =>
      match ms.usage with
      | none => memGuardResult
      | some u =>
        if u = 0 then memGuardResult
        else
          let used_memory := u - ((ms.stats.bind (fun i => i.cache)).getD 0)
          let available_memory := ms.limit
          { start := none
            usage := some used_memory
            limit := available_memory
            percent := jsMul (jsDiv used_memory available_memory) 100 }

/-- The memory derivation as the amended claim describes it: for a
present, nonzero usage the working set is `usage - cache` (cache
defaulting to 0), the limit is passed through unvalidated, and the
percent is `(usage - cache) / limit * 100` under JS number semantics
(absent limit ⇒ NaN, zero limit ⇒ ±Infinity/NaN, negative limit ⇒ a
negative percent — there is no guard); for an absent or zero usage the
function returns `{ start: 0, limit: 0, percent: 0 }`. -/
def memSpecAmended : Option RawStats → MemResult
  | none => memGuardResult
  | some st =>
    match st.memory_stats.bind (fun ms => ms.usage) with
    | none => memGuardResult
    | some u =>
      if u ≠ 0 then
        let ms := (st.memory_stats).getD
          { usage := none, limit := none, stats := none }
        let cache := ((ms.stats.bind (fun i => i.cache)).getD 0)
        { start := none
          usage := some (u - cache)
          limit := ms.limit
          percent := jsMul (jsDiv (u - cache) ms.limit) 100 }
      else memGuardResult

/-- Payload with memory usage 100 and limit 0: claim C2 says the returned
percent is exactly 0, the code returns +Infinity. -/
def c2ExampleA : RawStats :=
  { cpu_stats := none
    precpu_stats := none
    memory_stats := some { usage := some 100, limit := some 0, stats := none }
    blkio_stats := none
    pids_stats := none
    networks := none }

/-- Payload with memory usage 100 and no limit field: the code returns
percent NaN, not 0. -/
def c2ExampleB : RawStats :=
  { cpu_stats := none
    precpu_stats := none
    memory_stats := some { usage := some 100, limit := none, stats := none }
    blkio_stats := none
    pids_stats := none
    networks := none }

/-! ## calculateBlockIO (server.js lines 59-86)

The source function is named `calculateBlockIO`; it is rendered here as
`calculateBlockIo` (and its result object as `BlockIoResult`). -/

/-- Models `s.toLowerCase()` for the ASCII operation tags occurring here. -/
def toLowerStr (s : JStr) : JStr := s.map Char.toLower

/-- The character list of the literal `"read"`. -/
def readLit : JStr := ['r', 'e', 'a', 'd']

/-- The character list of the literal `"write"`. -/
def writeLit : JStr := ['w', 'r', 'i', 't', 'e']

/-- The `{read, write}` totals object. -/
structure BlockIoResult where
  read : ℚ
  write : ℚ
deriving DecidableEq, Repr

/-- Translation of the `processStatsArray` helper's loop over one entry
array.  `entry.op.toLowerCase()` throws a TypeError when `op` is absent
or not a string, aborting the whole computation (modeled by
`Except.error`). -/
def processStatsArray (acc : BlockIoResult) :
    List BlkioEntry → Except JStr BlockIoResult
  | [] => Except.ok acc
  | e :: rest =>
    match e.op with
    | none => Except.error ['T', 'y', 'p', 'e', 'E', 'r', 'r', 'o', 'r']
    | some s =>
      let op := toLowerStr s
      if op = readLit then
        processStatsArray { acc with read := acc.read + e.value } rest
      else if op = writeLit then
        processStatsArray { acc with write := acc.write + e.value } rest
      else processStatsArray acc rest

/-- Translation of `calculateBlockIO`.  An empty array is truthy in JS,
so a present-but-empty recursive field is processed (yielding zero
totals) rather than falling through to the flat field; a truthy
non-array value makes `Array.isArray` fail inside the helper, so it
contributes nothing. -/
def calculateBlockIo : Option BlkioStats → Except JStr BlockIoResult
  | none => Except.ok ⟨0, 0⟩
  | some bs =>
    match bs.io_service_bytes_recursive with
    | BlkField.arr l => processStatsArray ⟨0, 0⟩ l
    | BlkField.notArray => Except.ok ⟨0, 0⟩
    | BlkField.absent =>
      match bs.io_service_bytes with
      | BlkField.arr l => processStatsArray ⟨0, 0⟩ l
      | BlkField.notArray => Except.ok ⟨0, 0⟩
      | BlkField.absent => Except.ok ⟨0, 0⟩

/-- The byte contribution of one entry to the read total. -/
def readContrib (e : BlkioEntry) : ℚ :=
  if toLowerStr (e.op.getD []) = readLit then e.value else 0

/-- The byte contribution of one entry to the write total. -/
def writeContrib (e : BlkioEntry) : ℚ :=
  if toLowerStr (e.op.getD []) = writeLit then e.value else 0

/-- Total bytes over entries whose tag lowercases to `read`. -/
def readSum (l : List BlkioEntry) : ℚ := (l.map readContrib).sum

/-- Total bytes over entries whose tag lowercases to `write`. -/
def writeSum (l : List BlkioEntry) : ℚ := (l.map writeContrib).sum

/-- The block-IO payload of claim C4's concrete example:
`[{op:"Read", value:5}, {op:"write", value:3}]` under the recursive key. -/
def c4ExampleStats : BlkioStats :=
  { io_service_bytes_recursive := BlkField.arr
      [ { op := some ['R', 'e', 'a', 'd'], value := 5 }
      , { op := some ['w', 'r', 'i', 't', 'e'], value := 3 } ]
    io_service_bytes := BlkField.absent }

/-- Lists for the permutation witness. -/
def c4PermA : List BlkioEntry :=
  [ { op := some ['R', 'e', 'a', 'd'], value := 5 }
  , { op := some ['w', 'r', 'i', 't', 'e'], value := 3 } ]

/-- The list `c4PermA` reversed. -/
def c4PermB : List BlkioEntry := c4PermA.reverse

/-- The failing input for claim C5: an entry whose `op` field is absent. -/
def c5FailingStats : BlkioStats :=
  { io_service_bytes_recursive := BlkField.arr [{ op := none, value := 5 }]
    io_service_bytes := BlkField.absent }

/-! ## History buffer (server.js lines 138-139, 223-227) -/

/-- Translation of `const MAX_HISTORY = 14400` (server.js line 138). -/
def MAX_HISTORY : Nat := 14400

/-- One append to the history buffer (server.js lines 223-227):
`systemHistory.push(stats)` followed by a single `shift()` when the
length exceeds `MAX_HISTORY`. -/
def pushHistory {α : Type} (h : List α) (x : α) : List α :=
  let h2 := h ++ [x]
  if MAX_HISTORY < h2.length then h2.tail else h2

/-- The last `n` elements of a list, in order. -/
def lastN {α : Type} (n : Nat) (l : List α) : List α :=
  l.drop (l.length - n)

/-! ## Broadcast scheduler interval (server.js lines 236-240) -/

/-- Translation of `const POLL_INTERVAL = 5000` (server.js line 236): the fixed
`setInterval` period in milliseconds; nothing in the program reads a
configuration source for it. -/
def POLL_INTERVAL : Nat := 5000

/-! ## monitorContainers (server.js lines 88-133) -/

/-- Models `x.toFixed(2)` as the exact rounded rational the produced
string denotes (the source keeps the value only for display). -/
def toFixed2 (q : ℚ) : ℚ := (round (q * 100) : ℚ) / 100

/-- Rounding `toFixed` lifted to possibly non-finite values (`NaN.toFixed(2)` is
the string `"NaN"`, which still denotes NaN). -/
def toFixed2J : JNum → JNum
  | JNum.num q => JNum.num (toFixed2 q)
  | x => x

/-- One entry of the runtime's container listing (fields consumed). -/
structure ContainerInfo where
  Id : JStr
  Names : Option (List JStr)
  Image : JStr
  State : JStr
  Status : JStr
deriving DecidableEq, Repr

/-- The character list of the literal `"running"`. -/
def runningLit : JStr := ['r', 'u', 'n', 'n', 'i', 'n', 'g']

/-- The derived `stats` object attached to a running container. -/
structure NormStats where
  cpu : ℚ
  memory : Option ℚ
  memoryLimit : Option ℚ
  memoryPercent : JNum
  netIo : Option NetMap
  blockIo : BlockIoResult
  pids : ℚ
deriving DecidableEq, Repr

/-- The `stats` object literal of server.js lines 104-112.  The only
subexpression that can throw is `calculateBlockIO` (see C5); it is
evaluated first here, which is equivalent because every other field is
total and pure. -/
def buildStats (raw : RawStats) : Except JStr NormStats :=
  match calculateBlockIo raw.blkio_stats with
  | Except.error e => Except.error e
  | Except.ok blk =>
    let memStats := calculateMemoryUsage (some raw)
    Except.ok
      { cpu := toFixed2 (calculateCPUPercent (some raw))
        memory := memStats.usage
        memoryLimit := memStats.limit
        memoryPercent := toFixed2J memStats.percent
        netIo := raw.networks
        blockIo := blk
        pids := (raw.pids_stats.bind (fun p => p.current)).getD 0 }

/-- Remove the first occurrence of a character
(JS `String.replace` with a string pattern replaces only the first). -/
def removeFirstChar (c : Char) : JStr → JStr
  | [] => []
  | x :: xs => if x = c then xs else x :: removeFirstChar c xs

/-- Translation of the `name.replace` call removing the leading slash. -/
def stripSlash (s : JStr) : JStr := removeFirstChar '/' s

/-- One element of the published `containers` payload. -/
structure Snapshot where
  id : JStr
  name : JStr
  image : JStr
  state : JStr
  status : JStr
  stats : Option NormStats
deriving DecidableEq, Repr

/-- The `stats` value after the per-container try/catch: null unless the
container is listed as running, the stats fetch succeeded, and the
derivation did not throw. -/
def fetchedStats (fetch : JStr → Except JStr RawStats)
    (ci : ContainerInfo) : Option NormStats :=
  if ci.State = runningLit then
    match fetch ci.Id with
    | Except.ok raw => (buildStats raw).toOption
    | Except.error _ => none
  else none

/-- The per-container async callback (server.js lines 92-126).  The
return-object construction reads `containerInfo.Names[0]` outside the
try/catch; an empty or absent `Names` list therefore throws and rejects
this container's promise. -/
def enrichContainer (fetch : JStr → Except JStr RawStats)
    (ci : ContainerInfo) : Except JStr Snapshot :=
  let stats := fetchedStats fetch ci
  match ci.Names with
  | some (n :: _) =>
    Except.ok
      { id := ci.Id.take 12
        name := stripSlash n
        image := ci.Image
        state := ci.State
        status := ci.Status
        stats := stats }
  | _ => Except.error ['T', 'y', 'p', 'e', 'E', 'r', 'r', 'o', 'r']

/-- The `Promise.all` over the per-container promises: succeeds with all
snapshots in listing order, or rejects as soon as any one rejects. -/
def enrichAll (fetch : JStr → Except JStr RawStats) :
    List ContainerInfo → Except JStr (List Snapshot)
  | [] => Except.ok []
  | ci :: rest =>
    match enrichContainer fetch ci with
    | Except.error e => Except.error e
    | Except.ok s =>
      match enrichAll fetch rest with
      | Except.error e => Except.error e
      | Except.ok ss => Except.ok (s :: ss)

/-- One collection round of `monitorContainers`: `none` for the listing
means `docker.listContainers` threw (caught, nothing emitted); a
rejected `Promise.all` is caught by the same outer catch, so nothing is
emitted either.  `some snaps` is the payload of the emitted `containers`
event. -/
def monitorContainers (fetch : JStr → Except JStr RawStats) :
    Option (List ContainerInfo) → Option (List Snapshot)
  | none => none
  | some l =>
    match enrichAll fetch l with
    | Except.ok snaps => some snaps
    | Except.error _ => none

/-- The snapshot a well-formed listing entry is expected to produce. -/
def expectedSnapshot (fetch : JStr → Except JStr RawStats)
    (ci : ContainerInfo) : Snapshot :=
  { id := ci.Id.take 12
    name := stripSlash ((ci.Names.getD []).headD [])
    image := ci.Image
    state := ci.State
    status := ci.Status
    stats := fetchedStats fetch ci }

/-- Containers for the C6 witness: container `a` running with a failing
stats fetch, container `b` running with a succeeding one. -/
def c6ContainerA : ContainerInfo :=
  { Id := ['a'], Names := some [['/', 'a']], Image := ['i']
    State := runningLit, Status := ['u', 'p'] }

/-- Second listing entry for the C6 witness. -/
def c6ContainerB : ContainerInfo :=
  { Id := ['b'], Names := some [['/', 'b']], Image := ['i']
    State := runningLit, Status := ['u', 'p'] }

/-- An empty raw payload (every derivation takes its neutral path). -/
def emptyRawStats : RawStats :=
  { cpu_stats := none, precpu_stats := none, memory_stats := none
    blkio_stats := none, pids_stats := none, networks := none }

/-- Stats fetch for the C6 witness: fails for container `a`, succeeds
with the empty payload otherwise. -/
def c6Fetch : JStr → Except JStr RawStats :=
  fun id => if id = ['a'] then Except.error ['b', 'o', 'o', 'm']
    else Except.ok emptyRawStats

/-- A listing entry with an empty Names list. -/
def c10BadContainer : ContainerInfo :=
  { Id := ['c'], Names := some [], Image := ['i']
    State := runningLit, Status := ['u', 'p'] }

/-! ## Subscription channel and connection handler (server.js 242-254) -/

/-- Named events delivered to subscribers.  `R` is the host metrics
record type, `C` the `containers` payload type. -/
inductive Event (R C : Type) where
  | initHistory (hist : List R)
  | containers (payload : C)
  | systemStats (record : R)
deriving DecidableEq, Repr

/-- One emitted event together with the sockets it is delivered to. -/
structure Delivery (R C : Type) where
  recipients : List Nat
  event : Event R C
deriving DecidableEq, Repr

/-- Server state visible to the connection handler: the connected
sockets and the history buffer. -/
structure ServerState (R C : Type) where
  subs : List Nat
  history : List R
deriving DecidableEq, Repr

/-- The connection handler (server.js lines 242-254), as the ordered
delivery sequence it produces.  `socket.emit('initHistory', ...)` runs
synchronously first and is addressed to the new socket `n` only; the
immediate `monitorContainers()` / `monitorSystem()` calls publish their
results via `io.emit`, i.e. to every connected socket including `n`.
`cRes` / `sRes` are those rounds' outcomes (`none` means the round
failed and emitted nothing); a successful system round also appends its
record to the history.  The model fixes the containers-before-system
relative order; neither claim depends on it. -/
def onConnection {R C : Type} (st : ServerState R C) (n : Nat)
    (cRes : Option C) (sRes : Option R) :
    ServerState R C × List (Delivery R C) :=
  let subs := n :: st.subs
  let initDs : List (Delivery R C) :=
    [⟨[n], Event.initHistory st.history⟩]
  let contDs : List (Delivery R C) :=
    match cRes with
    | some c => [⟨subs, Event.containers c⟩]
    | none => []
  match sRes with
  | some r =>
    (⟨subs, pushHistory st.history r⟩,
      initDs ++ contDs ++ [⟨subs, Event.systemStats r⟩])
  | none => (⟨subs, st.history⟩, initDs ++ contDs)

/-- The ordered sequence of events a socket observes from a delivery
sequence. -/
def receivedBy {R C : Type} (s : Nat) (ds : List (Delivery R C)) :
    List (Event R C) :=
  (ds.filter (fun d => decide (s ∈ d.recipients))).map (fun d => d.event)

/-! ## History persistence round trip (server.js lines 142-166)

`saveHistory` writes `JSON.stringify(systemHistory)`; startup reads the
file back with `JSON.parse` and installs the result as the buffer with
no validation.  The buffer is therefore untyped JSON data; it is modeled
by `JValue`.  JSON numbers are decimal by construction and every JS
float prints as a decimal that reparses to the same float, so numbers
are modeled as exact decimals `mant * 10 ^ exp`, which the renderer
prints in the JSON exponent form `<mant>e<exp>`.  Strings are rendered
with `"` and `\` escaped; the parser (like `JSON.parse`) rejects raw
control characters, so the round trip is proved for buffers whose
strings contain none (`wfV`). -/

/-- Untyped JSON data. -/
inductive JValue where
  | jnull
  | jbool (b : Bool)
  | jnum (mant : Int) (exp : Int)
  | jstr (s : JStr)
  | jarr (elems : List JValue)
  | jobj (fields : List (JStr × JValue))

/-- The double-quote character. -/
def quoteChar : Char := Char.ofNat 34

/-- The backslash character. -/
def backslashChar : Char := Char.ofNat 92

/-- The opening-brace character. -/
def lbraceChar : Char := Char.ofNat 123

/-- The closing-brace character. -/
def rbraceChar : Char := Char.ofNat 125

/-- The decimal digit character for `d < 10`. -/
def digitChar (d : Nat) : Char :=
  if d = 0 then '0' else if d = 1 then '1' else if d = 2 then '2'
  else if d = 3 then '3' else if d = 4 then '4' else if d = 5 then '5'
  else if d = 6 then '6' else if d = 7 then '7' else if d = 8 then '8'
  else '9'

/-- Decimal digits of a natural number, most significant first. -/
def natChars (n : Nat) : List Char :=
  if _h : n < 10 then [digitChar n]
  else natChars (n / 10) ++ [digitChar (n % 10)]
termination_by n
decreasing_by exact Nat.div_lt_self (by omega) (by omega)

/-- Decimal rendering of an integer. -/
def intChars : Int → List Char
  | Int.ofNat n => natChars n
  | Int.negSucc m => '-' :: natChars (m + 1)

/-- JSON string escaping for one character. -/
def escChar (c : Char) : List Char :=
  if c = quoteChar ∨ c = backslashChar then [backslashChar, c] else [c]

/-- JSON string escaping. -/
def escString : JStr → List Char
  | [] => []
  | c :: cs => escChar c ++ escString cs

mutual

/-- Serialize a JSON value (the model of `JSON.stringify`). -/
def render : JValue → List Char
  | JValue.jnull => ['n', 'u', 'l', 'l']
  | JValue.jbool true => ['t', 'r', 'u', 'e']
  | JValue.jbool false => ['f', 'a', 'l', 's', 'e']
  | JValue.jnum m e => intChars m ++ 'e' :: intChars e
  | JValue.jstr s => quoteChar :: escString s ++ [quoteChar]
  | JValue.jarr xs => '[' :: renderElems xs ++ [']']
  | JValue.jobj fs => lbraceChar :: renderFields fs ++ [rbraceChar]

/-- Comma-separated array elements. -/
def renderElems : List JValue → List Char
  | [] => []
  | [v] => render v
  | v :: w :: vs => render v ++ ',' :: renderElems (w :: vs)

/-- Comma-separated object members. -/
def renderFields : List (JStr × JValue) → List Char
  | [] => []
  | [(k, v)] => quoteChar :: escString k ++ quoteChar :: ':' :: render v
  | (k, v) :: g :: fs =>
    (quoteChar :: escString k ++ quoteChar :: ':' :: render v) ++
      ',' :: renderFields (g :: fs)

end

/-- Decimal digit test. -/
def isDigitChar (c : Char) : Bool :=
  decide (48 ≤ c.toNat) && decide (c.toNat ≤ 57)

/-- Numeric value of a digit character. -/
def digitVal (c : Char) : Nat := c.toNat - 48

/-- Split off the maximal leading run of digits. -/
def takeDigitsFrom : List Char → List Char × List Char
  | [] => ([], [])
  | c :: cs =>
    if isDigitChar c then
      let p := takeDigitsFrom cs
      (c :: p.1, p.2)
    else ([], c :: cs)

/-- Value of a digit run, most significant first. -/
def digitsToNat (ds : List Char) : Nat :=
  ds.foldl (fun a c => a * 10 + digitVal c) 0

/-- Parse a nonempty digit run. -/
def parseNat (s : List Char) : Option (Nat × List Char) :=
  let p := takeDigitsFrom s
  if p.1 = [] then none else some (digitsToNat p.1, p.2)

/-- Parse an optionally negated digit run. -/
def parseInt : List Char → Option (Int × List Char)
  | [] => none
  | c :: rest =>
    if c = '-' then (parseNat rest).map (fun p => (-(p.1 : Int), p.2))
    else (parseNat (c :: rest)).map (fun p => ((p.1 : Int), p.2))

/-- Parse a number in the renderer's `<mant>e<exp>` exponent form. -/
def parseNumber (s : List Char) : Option (JValue × List Char) :=
  match parseInt s with
  | none => none
  | some (m, r) =>
    match r with
    | 'e' :: r2 =>
      match parseInt r2 with
      | none => none
      | some (e2, r3) => some (JValue.jnum m e2, r3)
    | _ => none

mutual

/-- Parse a string body up to the closing quote, undoing the escapes the
renderer produces and rejecting raw control characters. -/
def parseStringBody : List Char → Option (JStr × List Char)
  | [] => none
  | c :: rest =>
    if c = quoteChar then some ([], rest)
    else if c = backslashChar then parseEscape rest
    else if c.toNat < 32 then none
    else (parseStringBody rest).map (fun p => (c :: p.1, p.2))

/-- Handle the character following a backslash inside a string body. -/
def parseEscape : List Char → Option (JStr × List Char)
  | [] => none
  | d :: r2 =>
    if d = quoteChar ∨ d = backslashChar then
      (parseStringBody r2).map (fun p => (d :: p.1, p.2))
    else none

end

mutual

/-- Parse one JSON value (fuel-indexed; the top level supplies enough
fuel for the whole input). -/
def parseValue : Nat → List Char → Option (JValue × List Char)
  | 0, _ => none
  | fuel + 1, s =>
    match s with
    | [] => none
    | c :: rest =>
      if c = 'n' then
        match rest with
        | 'u' :: 'l' :: 'l' :: r => some (JValue.jnull, r)
        | _ => none
      else if c = 't' then
        match rest with
        | 'r' :: 'u' :: 'e' :: r => some (JValue.jbool true, r)
        | _ => none
      else if c = 'f' then
        match rest with
        | 'a' :: 'l' :: 's' :: 'e' :: r => some (JValue.jbool false, r)
        | _ => none
      else if c = quoteChar then
        (parseStringBody rest).map (fun p => (JValue.jstr p.1, p.2))
      else if c = '[' then
        match rest with
        | [] => none
        | d :: r2 =>
          if d = ']' then some (JValue.jarr [], r2)
          else (parseElems fuel (d :: r2)).map
            (fun p => (JValue.jarr p.1, p.2))
      else if c = lbraceChar then
        match rest with
        | [] => none
        | d :: r2 =>
          if d = rbraceChar then some (JValue.jobj [], r2)
          else (parseFields fuel (d :: r2)).map
            (fun p => (JValue.jobj p.1, p.2))
      else parseNumber (c :: rest)

/-- Parse the elements of a nonempty array, consuming the closing `]`. -/
def parseElems : Nat → List Char → Option (List JValue × List Char)
  | 0, _ => none
  | fuel + 1, s =>
    match parseValue fuel s with
    | none => none
    | some (v, r) =>
      match r with
      | [] => none
      | d :: r2 =>
        if d = ',' then
          (parseElems fuel r2).map (fun p => (v :: p.1, p.2))
        else if d = ']' then some ([v], r2)
        else none

/-- Parse the members of a nonempty object, consuming the closing brace. -/
def parseFields : Nat → List Char →
    Option (List (JStr × JValue) × List Char)
  | 0, _ => none
  | fuel + 1, s =>
    match s with
    | [] => none
    | c :: rest =>
      if c = quoteChar then
        match parseStringBody rest with
        | none => none
        | some (k, r) =>
          match r with
          | ':' :: r2 =>
            match parseValue fuel r2 with
            | none => none
            | some (v, r3) =>
              match r3 with
              | [] => none
              | d :: r4 =>
                if d = ',' then
                  (parseFields fuel r4).map (fun p => ((k, v) :: p.1, p.2))
                else if d = rbraceChar then some ([(k, v)], r4)
                else none
          | _ => none
      else none

end

/-- The model of `JSON.parse`: `none` means the parse threw. -/
def jsonParse (s : List Char) : Option JValue :=
  match parseValue (s.length + 1) s with
  | some (v, []) => some v
  | _ => none

/-- Translation of `saveHistory` (server.js lines 157-163): the file content written is
`JSON.stringify(systemHistory)`. -/
def saveHistory (hist : List JValue) : List Char :=
  render (JValue.jarr hist)

/-- The startup history load (server.js lines 145-154):
`JSON.parse(raw)` on the file content, installed with no validation;
`none` models a parse error (caught, leaving the buffer empty). -/
def loadHistory (raw : List Char) : Option JValue := jsonParse raw

/-- Strings whose characters need no escapes beyond `"` and `\`
(no raw control characters, which JSON.stringify would escape and this
parser rejects). -/
def wfStr (s : JStr) : Bool := s.all (fun c => decide (32 ≤ c.toNat))

mutual

/-- JSON values whose strings are all control-character-free. -/
def wfV : JValue → Bool
  | JValue.jnull => true
  | JValue.jbool _ => true
  | JValue.jnum _ _ => true
  | JValue.jstr s => wfStr s
  | JValue.jarr xs => wfL xs
  | JValue.jobj fs => wfF fs

/-- Conjunction of `wfV` over array elements. -/
def wfL : List JValue → Bool
  | [] => true
  | v :: vs => wfV v && wfL vs

/-- Conjunction of `wfV` over object members. -/
def wfF : List (JStr × JValue) → Bool
  | [] => true
  | (k, v) :: fs => wfStr k && wfV v && wfF fs

end

mutual

/-- Fuel bound for parsing a rendered value. -/
def sizeV : JValue → Nat
  | JValue.jarr xs => 1 + sizeL xs
  | JValue.jobj fs => 1 + sizeF fs
  | _ => 1

/-- Fuel bound for parsing rendered array elements. -/
def sizeL : List JValue → Nat
  | [] => 0
  | v :: vs => 1 + sizeV v + sizeL vs

/-- Fuel bound for parsing rendered object members. -/
def sizeF : List (JStr × JValue) → Nat
  | [] => 0
  | (_, v) :: fs => 1 + sizeV v + sizeF fs

end

/-- True when the input does not continue with a digit (so a maximal
digit run just before it ends there). -/
def noLeadingDigit : List Char → Bool
  | [] => true
  | c :: _ => !isDigitChar c

/-- A concrete two-record history buffer for the C9 witness. -/
def c9ExampleHistory : List JValue :=
  [ JValue.jobj
      [ (['t', 's'], JValue.jnum 1700000000000 0)
      , (['c', 'p', 'u'], JValue.jnum 425 (-1))
      , (['o', 's'], JValue.jstr ['l', 'i', 'n', 'u', 'x']) ]
  , JValue.jnull ]

/-- C1: the claim as stated is false.  On `c1ExampleA` every field the
claim requires is present and both deltas are positive, the claimed
formula yields 100, yet the code returns 0 (JS falsiness of the
present-but-zero previous usage).  On `c1ExampleB` the claimed
presence-based resolution uses the present `online_cpus = 0`, making the
claimed result 0, yet the code falls through to the per-CPU array length
and returns 200. -/
theorem c1_counterexample :
    (cpuTotal c1ExampleA = some 100 ∧ preCpuTotal c1ExampleA = some 0 ∧
      sysUsage c1ExampleA = some 200 ∧ preSysUsage c1ExampleA = some 100 ∧
      cpuSpecClaimed (some c1ExampleA) = 100 ∧
      calculateCPUPercent (some c1ExampleA) = 0 ∧ (100 : ℚ) ≠ 0) ∧
    (cpuSpecClaimed (some c1ExampleB) = 0 ∧
      calculateCPUPercent (some c1ExampleB) = 200 ∧ (0 : ℚ) ≠ 200) := by
  refine ⟨⟨rfl, rfl, rfl, rfl, ?_, ?_, by norm_num⟩, ?_, ?_, by norm_num⟩ <;>
    norm_num [cpuSpecClaimed, calculateCPUPercent, c1ExampleA, c1ExampleB,
      cpuTotal, preCpuTotal, sysUsage, preSysUsage, Option.bind]

/-- C1 (amended): the CPU-percent derivation returns the exact formula
`(cpuDelta / systemDelta) * onlineCpuCount * 100` precisely when the
current and previous cumulative usage fields are present and nonzero,
both system usage fields are present, and both deltas are positive, where
`onlineCpuCount` is the explicit online-CPU count if present and nonzero,
else the per-CPU usage array length if present and nonzero, else 1; every
other payload yields exactly 0. -/
theorem c1_theorem (s : Option RawStats) :
    calculateCPUPercent s = cpuSpecAmended s := by
  cases s with
  | none => rfl
  | some st =>
    obtain ⟨cs, pcs, ms, bs, ps, nets⟩ := st
    cases cs with
    | none => cases pcs <;> rfl
    | some cs =>
      obtain ⟨cu, sysn, oc⟩ := cs
      cases pcs with
      | none =>
        cases cu with
        | none => rfl
        | some cu =>
          obtain ⟨tu, ppu⟩ := cu
          cases tu <;> rfl
      | some pcs =>
        obtain ⟨pcu, psysn, poc⟩ := pcs
        cases cu with
        | none => rfl
        | some cu =>
          obtain ⟨tu, ppu⟩ := cu
          cases pcu with
          | none => cases tu <;> rfl
          | some pcu =>
            obtain ⟨ptu, pppu⟩ := pcu
            cases tu with
            | none => rfl
            | some now =>
              cases ptu with
              | none => rfl
              | some prev =>
                cases sysn with
                | none =>
                  simp only [calculateCPUPercent, cpuSpecAmended, cpuTotal,
                    preCpuTotal, sysUsage, preSysUsage, Option.bind]
                  split_ifs <;> rfl
                | some sn =>
                  cases psysn with
                  | none =>
                    simp only [calculateCPUPercent, cpuSpecAmended, cpuTotal,
                      preCpuTotal, sysUsage, preSysUsage, Option.bind]
                    split_ifs <;> rfl
                  | some sp =>
                    simp only [calculateCPUPercent, cpuSpecAmended, cpuTotal,
                      preCpuTotal, sysUsage, preSysUsage, onlineCpusResolved,
                      percpuFallback, Option.bind]
                    split_ifs <;> first | rfl | tauto

/-- C2: the claim as stated is false.  With usage 100 present and limit 0
(≤ 0), the code's returned percent is +Infinity, not the claimed 0; with
the limit field absent it is NaN, not 0. -/
theorem c2_counterexample :
    ((calculateMemoryUsage (some c2ExampleA)).percent = JNum.inf ∧
      JNum.inf ≠ JNum.num 0) ∧
    ((calculateMemoryUsage (some c2ExampleB)).percent = JNum.nan ∧
      JNum.nan ≠ JNum.num 0) := by
  refine ⟨⟨?_, by decide⟩, ?_, by decide⟩ <;>
    norm_num [calculateMemoryUsage, c2ExampleA, c2ExampleB, jsDiv, jsMul,
      Option.bind]

/-- C2 (amended): for every payload with a present, nonzero memory usage
the derivation returns working set `usage - cache` (cache defaulting to
0) and percent `(usage - cache) / limit * 100` computed under JS number
semantics with no guard on the limit (absent ⇒ NaN, zero ⇒
±Infinity/NaN); for an absent or zero usage it returns the guard object
`{ start: 0, limit: 0, percent: 0 }`. -/
theorem c2_theorem (s : Option RawStats) :
    calculateMemoryUsage s = memSpecAmended s := by
  cases s with
  | none => rfl
  | some st =>
    obtain ⟨cs, pcs, ms, bs, ps, nets⟩ := st
    cases ms with
    | none => rfl
    | some ms =>
      obtain ⟨u, lim, inner⟩ := ms
      cases u with
      | none => rfl
      | some u =>
        simp only [calculateMemoryUsage, memSpecAmended, Option.bind,
          Option.getD]
        split_ifs <;> first | rfl | tauto

theorem readLit_ne_writeLit : readLit ≠ writeLit := by decide

/-- The entry loop computes exactly the case-insensitive read/write sums
whenever every entry carries a string tag. -/
theorem processStatsArray_eq_sum (l : List BlkioEntry) :
    ∀ acc, (∀ e ∈ l, e.op.isSome) →
      processStatsArray acc l =
        Except.ok ⟨acc.read + readSum l, acc.write + writeSum l⟩ := by
  induction l with
  | nil =>
    intro acc _
    simp [processStatsArray, readSum, writeSum]
  | cons e rest ih =>
    intro acc h
    obtain ⟨s, hs⟩ := Option.isSome_iff_exists.mp (h e (List.mem_cons_self e rest))
    have hrest : ∀ x ∈ rest, x.op.isSome :=
      fun x hx => h x (List.mem_cons_of_mem e hx)
    simp only [processStatsArray, hs]
    by_cases hr : toLowerStr s = readLit
    · rw [if_pos hr, ih _ hrest]
      simp only [readSum, writeSum, List.map_cons, List.sum_cons,
        readContrib, writeContrib, hs, Option.getD_some, hr]
      rw [if_true, if_neg readLit_ne_writeLit]
      refine congrArg Except.ok ?_
      refine congrArg₂ BlockIoResult.mk ?_ ?_ <;> ring
    · rw [if_neg hr]
      by_cases hw : toLowerStr s = writeLit
      · rw [if_pos hw, ih _ hrest]
        simp only [readSum, writeSum, List.map_cons, List.sum_cons,
          readContrib, writeContrib, hs, Option.getD_some, hw]
        rw [if_true, if_neg (Ne.symm readLit_ne_writeLit)]
        refine congrArg Except.ok ?_
        refine congrArg₂ BlockIoResult.mk ?_ ?_ <;> ring
      · rw [if_neg hw, ih _ hrest]
        simp only [readSum, writeSum, List.map_cons, List.sum_cons,
          readContrib, writeContrib, hs, Option.getD_some]
        rw [if_neg hr, if_neg hw]
        refine congrArg Except.ok ?_
        refine congrArg₂ BlockIoResult.mk ?_ ?_ <;> ring

/-- C4: the block-IO derivation sums byte values over entries tagged
`read`/`write` up to case; the totals are invariant under permutation of
the entries; the source field is resolved recursive breakdown → flat
breakdown → `{read: 0, write: 0}`; and the claim's concrete example
evaluates to `{read: 5, write: 3}`. -/
theorem c4_theorem :
    (∀ l, (∀ e ∈ l, e.op.isSome) →
      processStatsArray ⟨0, 0⟩ l = Except.ok ⟨readSum l, writeSum l⟩) ∧
    (∀ l₁ l₂, l₁.Perm l₂ → (∀ e ∈ l₁, e.op.isSome) →
      processStatsArray ⟨0, 0⟩ l₁ = processStatsArray ⟨0, 0⟩ l₂) ∧
    (∀ bs l, bs.io_service_bytes_recursive = BlkField.arr l →
      calculateBlockIo (some bs) = processStatsArray ⟨0, 0⟩ l) ∧
    (∀ bs l, bs.io_service_bytes_recursive = BlkField.absent →
      bs.io_service_bytes = BlkField.arr l →
      calculateBlockIo (some bs) = processStatsArray ⟨0, 0⟩ l) ∧
    (∀ bs, bs.io_service_bytes_recursive = BlkField.absent →
      bs.io_service_bytes = BlkField.absent →
      calculateBlockIo (some bs) = Except.ok ⟨0, 0⟩) ∧
    calculateBlockIo (some c4ExampleStats) = Except.ok ⟨5, 3⟩ := by
  refine ⟨?_, ?_, ?_, ?_, ?_, ?_⟩
  · intro l h
    rw [processStatsArray_eq_sum l ⟨0, 0⟩ h]
    norm_num
  · intro l₁ l₂ hp h₁
    have h₂ : ∀ e ∈ l₂, e.op.isSome := fun e he => h₁ e (hp.mem_iff.mpr he)
    rw [processStatsArray_eq_sum l₁ ⟨0, 0⟩ h₁,
      processStatsArray_eq_sum l₂ ⟨0, 0⟩ h₂]
    have hr : readSum l₁ = readSum l₂ := (hp.map readContrib).sum_eq
    have hw : writeSum l₁ = writeSum l₂ := (hp.map writeContrib).sum_eq
    rw [hr, hw]
  · intro bs l h
    obtain ⟨f₁, f₂⟩ := bs
    cases h
    rfl
  · intro bs l h₁ h₂
    obtain ⟨f₁, f₂⟩ := bs
    cases h₁
    cases h₂
    rfl
  · intro bs h₁ h₂
    obtain ⟨f₁, f₂⟩ := bs
    cases h₁
    cases h₂
    rfl
  · norm_num [calculateBlockIo, c4ExampleStats, processStatsArray,
      toLowerStr, readLit, writeLit]
    rw [if_pos (by decide :
        'R'.toLower = 'r' ∧ 'e'.toLower = 'e' ∧ 'a'.toLower = 'a' ∧
          'd'.toLower = 'd'),
      if_pos (by decide :
        'w'.toLower = 'w' ∧ 'r'.toLower = 'r' ∧ 'i'.toLower = 'i' ∧
          't'.toLower = 't' ∧ 'e'.toLower = 'e')]

/-- C4 witness: the theorem applied at concrete inputs — the example
entry list and its reversal produce the same totals, and the claim's
concrete example yields `{read: 5, write: 3}`. -/
theorem c4_witness :
    processStatsArray ⟨0, 0⟩ c4PermA = processStatsArray ⟨0, 0⟩ c4PermB ∧
    calculateBlockIo (some c4ExampleStats) = Except.ok ⟨5, 3⟩ :=
  ⟨c4_theorem.2.1 c4PermA c4PermB (by decide) (by decide),
    c4_theorem.2.2.2.2.2⟩

/-- C5: evaluating the block-IO derivation at a payload containing an
entry with no operation tag throws (TypeError on
`entry.op.toLowerCase()`), contradicting the claimed totality;
`calculateCPUPercent` and `calculateMemoryUsage` are total by
construction (they return plain values on every input). -/
theorem c5_theorem :
    calculateBlockIo (some c5FailingStats) =
      Except.error ['T', 'y', 'p', 'e', 'E', 'r', 'r', 'o', 'r'] := by
  rfl

theorem lastN_append_lastN {α : Type} (n : Nat) (l xs : List α) :
    lastN n (lastN n l ++ xs) = lastN n (l ++ xs) := by
  unfold lastN
  rcases le_or_lt l.length n with hL | hL
  · have h0 : l.length - n = 0 := by omega
    rw [h0, List.drop_zero]
  · have hA : (l.drop (l.length - n)).length = n := by
      rw [List.length_drop]; omega
    rw [List.length_append, List.length_append, hA]
    have h1 : n + xs.length - n = xs.length := by omega
    rw [h1]
    rcases le_or_lt xs.length n with hx | hx
    · rw [List.drop_append_of_le_length (by omega),
        List.drop_append_of_le_length (by omega), List.drop_drop]
      have h2 : l.length + xs.length - n =
          l.length - n + xs.length := by omega
      rw [h2]
    · have h3 : xs.length = (l.drop (l.length - n)).length + (xs.length - n) := by
        rw [hA]; omega
      nth_rewrite 1 [h3]
      rw [List.drop_append]
      have h4 : l.length + xs.length - n = l.length + (xs.length - n) := by
        omega
      rw [h4, List.drop_append]

theorem pushHistory_eq_lastN {α : Type} (h : List α) (x : α)
    (hlen : h.length ≤ MAX_HISTORY) :
    pushHistory h x = lastN MAX_HISTORY (h ++ [x]) := by
  unfold pushHistory lastN
  simp only [List.length_append, List.length_singleton]
  by_cases hc : MAX_HISTORY < h.length + 1
  · rw [if_pos hc]
    have h1 : h.length + 1 - MAX_HISTORY = 1 := by omega
    rw [h1, List.drop_one]
  · rw [if_neg hc]
    have h1 : h.length + 1 - MAX_HISTORY = 0 := by omega
    rw [h1, List.drop_zero]

/-- Folding appends over any admissible starting buffer keeps exactly the
last `MAX_HISTORY` records. -/
theorem foldl_pushHistory {α : Type} (xs : List α) :
    ∀ h : List α, h.length ≤ MAX_HISTORY →
      xs.foldl pushHistory h = lastN MAX_HISTORY (h ++ xs) := by
  induction xs with
  | nil =>
    intro h hl
    rw [List.foldl_nil, List.append_nil]
    unfold lastN
    have h0 : h.length - MAX_HISTORY = 0 := by omega
    rw [h0, List.drop_zero]
  | cons x xs ih =>
    intro h hl
    rw [List.foldl_cons, pushHistory_eq_lastN h x hl,
      ih _ (by unfold lastN; rw [List.length_drop]; omega),
      lastN_append_lastN, List.append_assoc, List.singleton_append]

/-- C3: starting from the empty buffer, any sequence of appends leaves a
buffer of length at most `MAX_HISTORY` equal to the most recent
`MAX_HISTORY` records in oldest-first order; in particular appending
`MAX_HISTORY + k` records evicts exactly the `k` oldest (FIFO). -/
theorem c3_theorem (α : Type) (xs : List α) :
    (xs.foldl pushHistory []).length ≤ MAX_HISTORY ∧
    xs.foldl pushHistory [] = xs.drop (xs.length - MAX_HISTORY) ∧
    (∀ k, xs.length = MAX_HISTORY + k → xs.foldl pushHistory [] = xs.drop k) := by
  have hbase : xs.foldl pushHistory ([] : List α) =
      xs.drop (xs.length - MAX_HISTORY) := by
    rw [foldl_pushHistory xs [] (by simp [MAX_HISTORY]), List.nil_append]
    rfl
  refine ⟨?_, hbase, ?_⟩
  · rw [hbase, List.length_drop]; omega
  · intro k hk
    rw [hbase]
    have h1 : xs.length - MAX_HISTORY = k := by omega
    rw [h1]

/-- C3 witness: appending `MAX_HISTORY + 1` records to the empty buffer
leaves exactly the last `MAX_HISTORY` of them (the single oldest record
is evicted). -/
theorem c3_witness :
    (List.replicate (MAX_HISTORY + 1) (0 : ℕ)).foldl pushHistory [] =
      (List.replicate (MAX_HISTORY + 1) (0 : ℕ)).drop 1 :=
  (c3_theorem ℕ (List.replicate (MAX_HISTORY + 1) 0)).2.2 1
    (by rw [List.length_replicate])

/-- C8: the scheduler interval is the hardcoded constant 5000 ms, not the
claimed 2000 ms; the code's own capacity comment (line 136) is consistent
only with a 2000 ms cadence (2000 x 14400 = 8 hours in ms), while the
actual constant makes the buffer span 20 hours. -/
theorem c8_theorem :
    POLL_INTERVAL = 5000 ∧ POLL_INTERVAL ≠ 2000 ∧
    2000 * MAX_HISTORY = 28800000 ∧
    POLL_INTERVAL * MAX_HISTORY = 72000000 := by
  decide

theorem enrichAll_ok (fetch : JStr → Except JStr RawStats)
    (listing : List ContainerInfo)
    (hN : ∀ ci ∈ listing, ∃ n rest, ci.Names = some (n :: rest)) :
    enrichAll fetch listing =
      Except.ok (listing.map (expectedSnapshot fetch)) := by
  induction listing with
  | nil => rfl
  | cons hd tl ih =>
    obtain ⟨n, rest, hn⟩ := hN hd (List.mem_cons_self hd tl)
    have htl : ∀ ci ∈ tl, ∃ n rest, ci.Names = some (n :: rest) :=
      fun ci hci => hN ci (List.mem_cons_of_mem hd hci)
    simp only [enrichAll, enrichContainer, hn, ih htl, List.map_cons]
    simp [expectedSnapshot, hn]

/-- C6: when the listing succeeds and every entry is well formed (a
nonempty Names list, which the runtime's listing contract provides), the
published `containers` payload has exactly one snapshot per listed
container in order; a running container whose stats fetch failed appears
with `stats = null`, and every running container whose fetch and
derivation succeeded appears with the derived stats — one container's
failure never suppresses the others. -/
theorem c6_theorem (fetch : JStr → Except JStr RawStats)
    (listing : List ContainerInfo)
    (hN : ∀ ci ∈ listing, ∃ n rest, ci.Names = some (n :: rest)) :
    monitorContainers fetch (some listing) =
      some (listing.map (expectedSnapshot fetch)) ∧
    (∀ ci ∈ listing, ci.State = runningLit →
      (∀ e, fetch ci.Id = Except.error e →
        (expectedSnapshot fetch ci).stats = none) ∧
      (∀ raw ns, fetch ci.Id = Except.ok raw →
        buildStats raw = Except.ok ns →
        (expectedSnapshot fetch ci).stats = some ns)) := by
  refine ⟨?_, ?_⟩
  · simp [monitorContainers, enrichAll_ok fetch listing hN]
  · intro ci _ hrun
    constructor
    · intro e he
      simp [expectedSnapshot, fetchedStats, hrun, he]
    · intro raw ns hraw hns
      simp [expectedSnapshot, fetchedStats, hrun, hraw, hns, Except.toOption]

/-- C6 witness: on the concrete two-container listing with a failing
fetch for the first container, the round publishes both snapshots. -/
theorem c6_witness :
    monitorContainers c6Fetch (some [c6ContainerA, c6ContainerB]) =
      some ([c6ContainerA, c6ContainerB].map (expectedSnapshot c6Fetch)) :=
  (c6_theorem c6Fetch [c6ContainerA, c6ContainerB]
    (by
      intro ci hci
      simp only [List.mem_cons, List.not_mem_nil, or_false] at hci
      rcases hci with rfl | rfl
      · exact ⟨['/', 'a'], [], rfl⟩
      · exact ⟨['/', 'b'], [], rfl⟩)).1

theorem enrichAll_error_of_bad (fetch : JStr → Except JStr RawStats) :
    ∀ listing (ci : ContainerInfo), ci ∈ listing →
      (ci.Names = some [] ∨ ci.Names = none) →
      ∃ e, enrichAll fetch listing = Except.error e := by
  intro listing
  induction listing with
  | nil => intro ci h; simp at h
  | cons hd tl ih =>
    intro ci hmem hbad
    rcases List.mem_cons.mp hmem with rfl | hmem
    · have hbadenr : enrichContainer fetch ci =
          Except.error ['T', 'y', 'p', 'e', 'E', 'r', 'r', 'o', 'r'] := by
        rcases hbad with hb | hb <;> simp [enrichContainer, hb]
      exact ⟨['T', 'y', 'p', 'e', 'E', 'r', 'r', 'o', 'r'],
        by simp [enrichAll, hbadenr]⟩
    · cases henr : enrichContainer fetch hd with
      | error e => exact ⟨e, by simp [enrichAll, henr]⟩
      | ok s =>
        obtain ⟨e, he⟩ := ih ci hmem hbad
        exact ⟨e, by simp [enrichAll, henr, he]⟩

/-- C10: a single listing entry with an empty or absent Names list makes
the per-container callback throw outside its try/catch (at
`containerInfo.Names[0].replace`), the aggregate `Promise.all` rejects,
and no `containers` event is published for that tick at all. -/
theorem c10_theorem (fetch : JStr → Except JStr RawStats)
    (listing : List ContainerInfo) (ci : ContainerInfo)
    (hmem : ci ∈ listing) (hbad : ci.Names = some [] ∨ ci.Names = none) :
    monitorContainers fetch (some listing) = none := by
  obtain ⟨e, he⟩ := enrichAll_error_of_bad fetch listing ci hmem hbad
  simp [monitorContainers, he]

/-- C10 witness: a round whose listing contains a well-formed running
container and one entry with empty Names publishes nothing. -/
theorem c10_witness :
    monitorContainers c6Fetch (some [c6ContainerB, c10BadContainer]) = none :=
  c10_theorem c6Fetch [c6ContainerB, c10BadContainer] c10BadContainer
    (by simp) (Or.inl rfl)

/-- C7: the claim as stated is false.  With subscriber 0 already
connected, history `[5]` and a successful immediate round, the
connection of subscriber 1 delivers that round's `containers` and
`systemStats` events to subscriber 0 as well — not "to that subscriber
only", and it does disturb the events observed by the already-connected
subscriber. -/
theorem c7_counterexample :
    receivedBy 0
        (onConnection (R := ℕ) (C := ℕ) ⟨[0], [5]⟩ 1 (some 9) (some 7)).2 =
      [Event.containers 9, Event.systemStats 7] ∧
    (0 : ℕ) ≠ 1 := by
  decide

/-- C7 (amended): a subscriber connecting mid-run first receives
`initHistory` carrying exactly the current buffer, before any
`systemStats` of this connection round; the immediate round's
`containers` and `systemStats` events are then broadcast to all
connected subscribers — the new one and every already-connected one
alike. -/
theorem c7_theorem {R C : Type} (st : ServerState R C) (n : Nat)
    (cRes : Option C) (sRes : Option R) :
    (receivedBy n (onConnection st n cRes sRes).2).head? =
      some (Event.initHistory st.history) ∧
    (∀ d ∈ (onConnection st n cRes sRes).2.tail,
      d.recipients = n :: st.subs ∧
      ∀ h, d.event ≠ Event.initHistory h) := by
  cases cRes <;> cases sRes <;>
    simp [onConnection, receivedBy]

/-- C7 witness: the amended theorem applied at the counterexample's
concrete input — the new subscriber's first received event is the exact
history replay, and the round's `systemStats` delivery goes to both
sockets. -/
theorem c7_witness :
    (receivedBy 1
        (onConnection (R := ℕ) (C := ℕ) ⟨[0], [5]⟩ 1 (some 9) (some 7)).2).head? =
      some (Event.initHistory [5]) ∧
    (Delivery.mk [1, 0] (Event.systemStats 7 : Event ℕ ℕ)).recipients =
      1 :: [0] ∧
    ∀ h, (Delivery.mk [1, 0] (Event.systemStats 7 : Event ℕ ℕ)).event ≠
      Event.initHistory h := by
  refine ⟨(c7_theorem (R := ℕ) (C := ℕ) ⟨[0], [5]⟩ 1 (some 9) (some 7)).1,
    ?_, ?_⟩
  · exact ((c7_theorem (R := ℕ) (C := ℕ) ⟨[0], [5]⟩ 1 (some 9) (some 7)).2
      (Delivery.mk [1, 0] (Event.systemStats 7)) (by decide)).1
  · exact ((c7_theorem (R := ℕ) (C := ℕ) ⟨[0], [5]⟩ 1 (some 9) (some 7)).2
      (Delivery.mk [1, 0] (Event.systemStats 7)) (by decide)).2

theorem digitVal_digitChar : ∀ d, d < 10 → digitVal (digitChar d) = d := by
  decide

theorem isDigitChar_digitChar : ∀ d, d < 10 →
    isDigitChar (digitChar d) = true := by
  decide

theorem natChars_ne_nil (n : Nat) : natChars n ≠ [] := by
  unfold natChars
  split
  · simp
  · simp

theorem natChars_digits (n : Nat) :
    ∀ c ∈ natChars n, isDigitChar c = true := by
  induction n using Nat.strong_induction_on with
  | _ n ih =>
    unfold natChars
    split
    · next h =>
      intro c hc
      simp only [List.mem_singleton] at hc
      subst hc
      exact isDigitChar_digitChar n h
    · next h =>
      intro c hc
      rw [List.mem_append] at hc
      rcases hc with hc | hc
      · exact ih (n / 10) (Nat.div_lt_self (by omega) (by omega)) c hc
      · simp only [List.mem_singleton] at hc
        subst hc
        exact isDigitChar_digitChar (n % 10) (Nat.mod_lt _ (by omega))

theorem digitsToNat_append (ds : List Char) (c : Char) :
    digitsToNat (ds ++ [c]) = digitsToNat ds * 10 + digitVal c := by
  unfold digitsToNat
  rw [List.foldl_append]
  rfl

theorem digitsToNat_natChars (n : Nat) : digitsToNat (natChars n) = n := by
  induction n using Nat.strong_induction_on with
  | _ n ih =>
    unfold natChars
    split
    · next h =>
      show digitsToNat [digitChar n] = n
      unfold digitsToNat
      simp only [List.foldl_cons, List.foldl_nil, Nat.zero_mul, Nat.zero_add]
      exact digitVal_digitChar n h
    · next h =>
      rw [digitsToNat_append,
        ih (n / 10) (Nat.div_lt_self (by omega) (by omega)),
        digitVal_digitChar (n % 10) (Nat.mod_lt _ (by omega))]
      omega

theorem takeDigitsFrom_append (l r : List Char)
    (hl : ∀ c ∈ l, isDigitChar c = true) (hr : noLeadingDigit r = true) :
    takeDigitsFrom (l ++ r) = (l, r) := by
  induction l with
  | nil =>
    simp only [List.nil_append]
    cases r with
    | nil => rfl
    | cons c cs =>
      have hc : isDigitChar c = false := by
        simp only [noLeadingDigit, Bool.not_eq_true'] at hr
        exact hr
      unfold takeDigitsFrom
      rw [if_neg (by simp [hc])]
  | cons c cs ih =>
    simp only [List.cons_append]
    unfold takeDigitsFrom
    rw [if_pos (hl c (List.mem_cons_self c cs)),
      ih (fun x hx => hl x (List.mem_cons_of_mem c hx))]

theorem parseNat_round (n : Nat) (rest : List Char)
    (hr : noLeadingDigit rest = true) :
    parseNat (natChars n ++ rest) = some (n, rest) := by
  unfold parseNat
  rw [takeDigitsFrom_append _ _ (natChars_digits n) hr]
  rw [if_neg (natChars_ne_nil n), digitsToNat_natChars]

theorem parseInt_round (m : Int) (rest : List Char)
    (hr : noLeadingDigit rest = true) :
    parseInt (intChars m ++ rest) = some (m, rest) := by
  cases m with
  | ofNat n =>
    obtain ⟨c, cs, hcons⟩ := List.exists_cons_of_ne_nil (natChars_ne_nil n)
    have hc : isDigitChar c = true :=
      natChars_digits n c (by rw [hcons]; exact List.mem_cons_self c cs)
    have hcm : c ≠ '-' := by
      intro h
      rw [h] at hc
      exact absurd hc (by decide)
    show parseInt (natChars n ++ rest) = some (Int.ofNat n, rest)
    rw [hcons, List.cons_append]
    show (if c = '-' then
        (parseNat (cs ++ rest)).map (fun p => (-(p.1 : Int), p.2))
      else (parseNat (c :: (cs ++ rest))).map (fun p => ((p.1 : Int), p.2))) =
      some (Int.ofNat n, rest)
    rw [if_neg hcm, ← List.cons_append, ← hcons, parseNat_round n rest hr]
    rfl
  | negSucc k =>
    show parseInt (('-' :: natChars (k + 1)) ++ rest) =
      some (Int.negSucc k, rest)
    rw [List.cons_append]
    show (parseNat (natChars (k + 1) ++ rest)).map
        (fun p => (-(p.1 : Int), p.2)) = some (Int.negSucc k, rest)
    rw [parseNat_round (k + 1) rest hr]
    have hneg : -(((k + 1 : Nat) : Int)) = Int.negSucc k := by
      rw [Int.negSucc_eq]
      push_cast
      ring
    show some (-(((k + 1 : Nat) : Int)), rest) = some (Int.negSucc k, rest)
    rw [hneg]

theorem parseNumber_round (m e : Int) (rest : List Char)
    (hr : noLeadingDigit rest = true) :
    parseNumber ((intChars m ++ 'e' :: intChars e) ++ rest) =
      some (JValue.jnum m e, rest) := by
  rw [List.append_assoc, List.cons_append]
  unfold parseNumber
  rw [parseInt_round m ('e' :: (intChars e ++ rest)) rfl]
  show (match parseInt (intChars e ++ rest) with
    | none => none
    | some (e2, r3) => some (JValue.jnum m e2, r3)) = some (JValue.jnum m e, rest)
  rw [parseInt_round e rest hr]

theorem parseStringBody_round (s : JStr) :
    wfStr s = true → ∀ rest,
      parseStringBody (escString s ++ quoteChar :: rest) = some (s, rest) := by
  induction s with
  | nil =>
    intro _ rest
    show parseStringBody (quoteChar :: rest) = some ([], rest)
    rfl
  | cons c cs ih =>
    intro hwf rest
    have hwfc : 32 ≤ c.toNat := by
      simp only [wfStr, List.all_cons, Bool.and_eq_true, decide_eq_true_eq]
        at hwf
      exact hwf.1
    have hwfcs : wfStr cs = true := by
      simp only [wfStr, List.all_cons, Bool.and_eq_true] at hwf
      exact hwf.2
    show parseStringBody ((escChar c ++ escString cs) ++ quoteChar :: rest) =
      some (c :: cs, rest)
    unfold escChar
    by_cases hq : c = quoteChar ∨ c = backslashChar
    · rw [if_pos hq]
      show (if c = quoteChar ∨ c = backslashChar then
          (parseStringBody (escString cs ++ quoteChar :: rest)).map
            (fun p => (c :: p.1, p.2))
        else none) = some (c :: cs, rest)
      rw [if_pos hq, ih hwfcs rest]
      rfl
    · rw [if_neg hq]
      push_neg at hq
      show (if c = quoteChar then some ([], escString cs ++ quoteChar :: rest)
        else if c = backslashChar then
          parseEscape (escString cs ++ quoteChar :: rest)
        else if c.toNat < 32 then none
        else (parseStringBody (escString cs ++ quoteChar :: rest)).map
          (fun p => (c :: p.1, p.2))) = some (c :: cs, rest)
      rw [if_neg hq.1, if_neg hq.2, if_neg (by omega : ¬c.toNat < 32),
        ih hwfcs rest]
      rfl

theorem sizeV_pos (v : JValue) : 1 ≤ sizeV v := by
  cases v <;> simp [sizeV]

theorem sizeL_pos (xs : List JValue) (h : xs ≠ []) : 1 ≤ sizeL xs := by
  cases xs with
  | nil => exact absurd rfl h
  | cons v vs => simp only [sizeL]; omega

theorem sizeF_pos (fs : List (JStr × JValue)) (h : fs ≠ []) : 1 ≤ sizeF fs := by
  cases fs with
  | nil => exact absurd rfl h
  | cons kv fs' => obtain ⟨k, v⟩ := kv; simp only [sizeF]; omega

mutual

theorem sizeV_le_render (v : JValue) : sizeV v ≤ (render v).length := by
  cases v with
  | jnull => simp [sizeV, render]
  | jbool b => cases b <;> simp [sizeV, render]
  | jnum m e => simp [sizeV, render]; omega
  | jstr s => simp [sizeV, render]
  | jarr xs =>
    have h := sizeL_le_renderElems xs
    simp only [sizeV, render, List.length_cons, List.length_append,
      List.length_singleton]
    omega
  | jobj fs =>
    have h := sizeF_le_renderFields fs
    simp only [sizeV, render, List.length_cons, List.length_append,
      List.length_singleton]
    omega

theorem sizeL_le_renderElems (xs : List JValue) :
    sizeL xs ≤ 1 + (renderElems xs).length := by
  cases xs with
  | nil => simp [sizeL, renderElems]
  | cons v vs =>
    cases vs with
    | nil =>
      have h := sizeV_le_render v
      simp only [sizeL, renderElems]
      omega
    | cons w vs' =>
      have h1 := sizeV_le_render v
      have h2 := sizeL_le_renderElems (w :: vs')
      rw [show sizeL (v :: w :: vs') = 1 + sizeV v + sizeL (w :: vs') from rfl]
      simp only [renderElems, List.length_append, List.length_cons]
      omega

theorem sizeF_le_renderFields (fs : List (JStr × JValue)) :
    sizeF fs ≤ 1 + (renderFields fs).length := by
  cases fs with
  | nil => simp [sizeF, renderFields]
  | cons kv fs' =>
    obtain ⟨k, v⟩ := kv
    cases fs' with
    | nil =>
      have h := sizeV_le_render v
      simp only [sizeF, renderFields, List.length_cons, List.length_append]
      omega
    | cons g fs'' =>
      have h1 := sizeV_le_render v
      have h2 := sizeF_le_renderFields (g :: fs'')
      rw [show sizeF ((k, v) :: g :: fs'') =
        1 + sizeV v + sizeF (g :: fs'') from rfl]
      simp only [renderFields, List.length_append, List.length_cons]
      omega

end

theorem intChars_head (m : Int) :
    ∃ c cs, intChars m = c :: cs ∧ (isDigitChar c = true ∨ c = '-') := by
  cases m with
  | ofNat n =>
    obtain ⟨c, cs, hcons⟩ := List.exists_cons_of_ne_nil (natChars_ne_nil n)
    refine ⟨c, cs, hcons, Or.inl ?_⟩
    exact natChars_digits n c (by rw [hcons]; exact List.mem_cons_self c cs)
  | negSucc k => exact ⟨'-', natChars (k + 1), rfl, Or.inr rfl⟩

theorem numStart_not_keyword (c : Char)
    (h : isDigitChar c = true ∨ c = '-') :
    c ≠ 'n' ∧ c ≠ 't' ∧ c ≠ 'f' ∧ c ≠ quoteChar ∧ c ≠ '[' ∧
      c ≠ lbraceChar := by
  rcases h with h | h
  · refine ⟨?_, ?_, ?_, ?_, ?_, ?_⟩ <;>
      (intro he; rw [he] at h; exact absurd h (by decide))
  · subst h
    exact ⟨by decide, by decide, by decide, by decide, by decide, by decide⟩

/-- The first character of a rendered value is never a closing bracket,
closing brace or comma. -/
theorem render_head_ne (v : JValue) :
    ∃ c cs, render v = c :: cs ∧ c ≠ ']' ∧ c ≠ rbraceChar ∧ c ≠ ',' := by
  cases v with
  | jnull => refine ⟨'n', _, rfl, ?_, ?_, ?_⟩ <;> decide
  | jbool b =>
    cases b with
    | false => refine ⟨'f', _, rfl, ?_, ?_, ?_⟩ <;> decide
    | true => refine ⟨'t', _, rfl, ?_, ?_, ?_⟩ <;> decide
  | jnum m e =>
    obtain ⟨c, cs, hcons, hstart⟩ := intChars_head m
    rcases hstart with h | h
    · refine ⟨c, cs ++ 'e' :: intChars e,
        by simp only [render, hcons, List.cons_append], ?_, ?_, ?_⟩ <;>
        (intro he; rw [he] at h; exact absurd h (by decide))
    · subst h
      refine ⟨'-', cs ++ 'e' :: intChars e,
        by simp only [render, hcons, List.cons_append], ?_, ?_, ?_⟩ <;>
        decide
  | jstr s => refine ⟨quoteChar, _, rfl, ?_, ?_, ?_⟩ <;> decide
  | jarr xs => refine ⟨'[', _, rfl, ?_, ?_, ?_⟩ <;> decide
  | jobj fs => refine ⟨lbraceChar, _, rfl, ?_, ?_, ?_⟩ <;> decide

/-- Rendered nonempty array elements start with the first element. -/
theorem renderElems_cons_eq (x : JValue) (xs : List JValue) :
    ∃ t, renderElems (x :: xs) = render x ++ t := by
  cases xs with
  | nil => exact ⟨[], by simp [renderElems]⟩
  | cons w vs => exact ⟨',' :: renderElems (w :: vs), rfl⟩

/-- Rendered nonempty object members start with a quote. -/
theorem renderFields_cons_eq (kv : JStr × JValue)
    (fs : List (JStr × JValue)) :
    ∃ t, renderFields (kv :: fs) = quoteChar :: t := by
  obtain ⟨k, v⟩ := kv
  cases fs with
  | nil => exact ⟨escString k ++ quoteChar :: ':' :: render v, rfl⟩
  | cons g fs' =>
    exact ⟨(escString k ++ quoteChar :: ':' :: render v) ++
      ',' :: renderFields (g :: fs'), rfl⟩

/-- Parsing inverts rendering, for every fuel bound at least the size of
the value (arrays and objects continue with their closing bracket; a
number must not be followed directly by another digit). -/
theorem parse_render_aux (fuel : Nat) :
    (∀ v rest, wfV v = true → sizeV v ≤ fuel → noLeadingDigit rest = true →
      parseValue fuel (render v ++ rest) = some (v, rest)) ∧
    (∀ xs rest, xs ≠ [] → wfL xs = true → sizeL xs ≤ fuel →
      parseElems fuel (renderElems xs ++ ']' :: rest) = some (xs, rest)) ∧
    (∀ fs rest, fs ≠ [] → wfF fs = true → sizeF fs ≤ fuel →
      parseFields fuel (renderFields fs ++ rbraceChar :: rest) =
        some (fs, rest)) := by
  induction fuel with
  | zero =>
    refine ⟨fun v rest _ hsz _ => absurd hsz (by have := sizeV_pos v; omega),
      fun xs rest hne _ hsz =>
        absurd hsz (by have := sizeL_pos xs hne; omega),
      fun fs rest hne _ hsz =>
        absurd hsz (by have := sizeF_pos fs hne; omega)⟩
  | succ f ih =>
    obtain ⟨ihV, ihE, ihF⟩ := ih
    refine ⟨?_, ?_, ?_⟩
    · intro v rest hwf hsz hrest
      cases v with
      | jnull => rfl
      | jbool b => cases b <;> rfl
      | jnum m e =>
        obtain ⟨c, cs, hcons, hstart⟩ := intChars_head m
        obtain ⟨h1, h2, h3, h4, h5, h6⟩ := numStart_not_keyword c hstart
        have hN := parseNumber_round m e rest hrest
        rw [List.append_assoc, List.cons_append, hcons, List.cons_append]
          at hN
        simp only [render]
        rw [List.append_assoc, List.cons_append, hcons, List.cons_append]
        simp only [parseValue]
        rw [if_neg h1, if_neg h2, if_neg h3, if_neg h4, if_neg h5, if_neg h6]
        exact hN
      | jstr s =>
        simp only [render]
        rw [List.cons_append, List.cons_append, List.append_assoc,
          List.singleton_append]
        simp only [parseValue]
        rw [if_neg (by decide : ¬(quoteChar = 'n')),
          if_neg (by decide : ¬(quoteChar = 't')),
          if_neg (by decide : ¬(quoteChar = 'f')),
          if_true, parseStringBody_round s hwf rest]
        rfl
      | jarr xs =>
        cases xs with
        | nil => rfl
        | cons x xs' =>
          obtain ⟨t, ht⟩ := renderElems_cons_eq x xs'
          obtain ⟨c, cs, hcons, hb1, hb2, hb3⟩ := render_head_ne x
          have hE := ihE (x :: xs') rest (by simp) hwf (by
            have h0 : sizeV (JValue.jarr (x :: xs')) =
              1 + sizeL (x :: xs') := rfl
            omega)
          rw [ht, List.append_assoc, hcons, List.cons_append] at hE
          simp only [render]
          rw [List.cons_append, List.cons_append, List.append_assoc,
            List.singleton_append, ht, List.append_assoc, hcons,
            List.cons_append]
          simp only [parseValue]
          rw [if_neg (by decide : ¬('[' = 'n')),
            if_neg (by decide : ¬('[' = 't')),
            if_neg (by decide : ¬('[' = 'f')),
            if_neg (by decide : ¬('[' = quoteChar)), if_true]
          show (if c = ']' then
              some (JValue.jarr [], cs ++ (t ++ ']' :: rest))
            else (parseElems f (c :: (cs ++ (t ++ ']' :: rest)))).map
              (fun p => (JValue.jarr p.1, p.2))) =
            some (JValue.jarr (x :: xs'), rest)
          rw [if_neg hb1, hE]
          rfl
      | jobj fs =>
        cases fs with
        | nil => rfl
        | cons kv fs' =>
          obtain ⟨t, ht⟩ := renderFields_cons_eq kv fs'
          have hF := ihF (kv :: fs') rest (by simp) hwf (by
            have h0 : sizeV (JValue.jobj (kv :: fs')) =
              1 + sizeF (kv :: fs') := rfl
            omega)
          rw [ht, List.cons_append] at hF
          simp only [render]
          rw [List.cons_append, List.cons_append, List.append_assoc,
            List.singleton_append, ht, List.cons_append]
          simp only [parseValue]
          rw [if_neg (by decide : ¬(lbraceChar = 'n')),
            if_neg (by decide : ¬(lbraceChar = 't')),
            if_neg (by decide : ¬(lbraceChar = 'f')),
            if_neg (by decide : ¬(lbraceChar = quoteChar)),
            if_neg (by decide : ¬(lbraceChar = '[')), if_true]
          show (if quoteChar = rbraceChar then
              some (JValue.jobj [], t ++ rbraceChar :: rest)
            else (parseFields f (quoteChar :: (t ++ rbraceChar :: rest))).map
              (fun p => (JValue.jobj p.1, p.2))) =
            some (JValue.jobj (kv :: fs'), rest)
          rw [if_neg (by decide : ¬(quoteChar = rbraceChar)), hF]
          rfl
    · intro xs rest hne hwf hsz
      cases xs with
      | nil => exact absurd rfl hne
      | cons v vs =>
        have hw : wfV v = true ∧ wfL vs = true := by
          rw [show wfL (v :: vs) = (wfV v && wfL vs) from rfl,
            Bool.and_eq_true] at hwf
          exact hwf
        cases vs with
        | nil =>
          have hV := ihV v (']' :: rest) hw.1 (by
            rw [show sizeL [v] = 1 + sizeV v + sizeL [] from rfl,
              show sizeL ([] : List JValue) = 0 from rfl] at hsz
            omega) rfl
          simp only [renderElems]
          simp only [parseElems]
          rw [hV]
          rfl
        | cons w vs' =>
          have hV := ihV v (',' :: (renderElems (w :: vs') ++ ']' :: rest))
            hw.1 (by
              rw [show sizeL (v :: w :: vs') =
                1 + sizeV v + sizeL (w :: vs') from rfl] at hsz
              omega) rfl
          have hE2 := ihE (w :: vs') rest (by simp) hw.2 (by
            rw [show sizeL (v :: w :: vs') =
              1 + sizeV v + sizeL (w :: vs') from rfl] at hsz
            omega)
          simp only [renderElems]
          rw [List.append_assoc, List.cons_append]
          simp only [parseElems]
          rw [hV]
          show ((parseElems f (renderElems (w :: vs') ++ ']' :: rest)).map
            (fun p => (v :: p.1, p.2))) = some (v :: w :: vs', rest)
          rw [hE2]
          rfl
    · intro fs rest hne hwf hsz
      cases fs with
      | nil => exact absurd rfl hne
      | cons kv fs' =>
        obtain ⟨k, v⟩ := kv
        have hw : wfStr k = true ∧ wfV v = true ∧ wfF fs' = true := by
          rw [show wfF ((k, v) :: fs') =
            (wfStr k && wfV v && wfF fs') from rfl,
            Bool.and_eq_true, Bool.and_eq_true] at hwf
          exact ⟨hwf.1.1, hwf.1.2, hwf.2⟩
        cases fs' with
        | nil =>
          have hV := ihV v (rbraceChar :: rest) hw.2.1 (by
            rw [show sizeF [(k, v)] = 1 + sizeV v + sizeF [] from rfl,
              show sizeF ([] : List (JStr × JValue)) = 0 from rfl] at hsz
            omega) rfl
          simp only [renderFields]
          rw [List.cons_append, List.cons_append, List.append_assoc,
            List.cons_append, List.cons_append]
          simp only [parseFields]
          rw [if_true, parseStringBody_round k hw.1
              (':' :: (render v ++ rbraceChar :: rest))]
          show (match parseValue f (render v ++ rbraceChar :: rest) with
            | none => none
            | some (v2, r3) =>
              match r3 with
              | [] => none
              | d :: r4 =>
                if d = ',' then
                  (parseFields f r4).map (fun p => ((k, v2) :: p.1, p.2))
                else if d = rbraceChar then some ([(k, v2)], r4)
                else none) = some ([(k, v)], rest)
          rw [hV]
          rfl
        | cons g fs'' =>
          have hV := ihV v
            (',' :: (renderFields (g :: fs'') ++ rbraceChar :: rest))
            hw.2.1 (by
              rw [show sizeF ((k, v) :: g :: fs'') =
                1 + sizeV v + sizeF (g :: fs'') from rfl] at hsz
              omega) rfl
          have hF2 := ihF (g :: fs'') rest (by simp) hw.2.2 (by
            rw [show sizeF ((k, v) :: g :: fs'') =
              1 + sizeV v + sizeF (g :: fs'') from rfl] at hsz
            omega)
          simp only [renderFields]
          rw [List.append_assoc, List.append_assoc, List.cons_append,
            List.cons_append, List.cons_append, List.cons_append]
          simp only [parseFields]
          rw [if_true, parseStringBody_round k hw.1
              (':' :: (render v ++
                (',' :: (renderFields (g :: fs'') ++ rbraceChar :: rest))))]
          show (match parseValue f (render v ++
              (',' :: (renderFields (g :: fs'') ++ rbraceChar :: rest))) with
            | none => none
            | some (v2, r3) =>
              match r3 with
              | [] => none
              | d :: r4 =>
                if d = ',' then
                  (parseFields f r4).map (fun p => ((k, v2) :: p.1, p.2))
                else if d = rbraceChar then some ([(k, v2)], r4)
                else none) = some ((k, v) :: g :: fs'', rest)
          rw [hV]
          show ((parseFields f
              (renderFields (g :: fs'') ++ rbraceChar :: rest)).map
            (fun p => ((k, v) :: p.1, p.2))) =
            some ((k, v) :: g :: fs'', rest)
          rw [hF2]
          rfl

theorem jsonParse_render (v : JValue) (hwf : wfV v = true) :
    jsonParse (render v) = some v := by
  unfold jsonParse
  have h := (parse_render_aux ((render v).length + 1)).1 v [] hwf
    (by have := sizeV_le_render v; omega) rfl
  rw [List.append_nil] at h
  rw [h]

/-- C9: serializing the history buffer to its durable JSON form and
reparsing it at startup yields the identical ordered record sequence,
for every buffer whose records are JSON data with control-character-free
strings. -/
theorem c9_theorem (hist : List JValue)
    (hwf : wfV (JValue.jarr hist) = true) :
    loadHistory (saveHistory hist) = some (JValue.jarr hist) :=
  jsonParse_render (JValue.jarr hist) hwf

/-- C9 witness: the round trip applied to the concrete buffer. -/
theorem c9_witness :
    wfV (JValue.jarr c9ExampleHistory) = true ∧
    loadHistory (saveHistory c9ExampleHistory) =
      some (JValue.jarr c9ExampleHistory) :=
  ⟨rfl, c9_theorem c9ExampleHistory rfl⟩

end MiniMonitor
